import Mathlib

/-!
Shallow embedding of the crawl-orchestration core of the jmm2020ai_deepcrawl
repository (src/core/master_crawl.py, src/api/api_bridge.py,
src/core/db_adapter.py) and proofs about the frozen specification claims.

Python strings are modelled as List Char, Python floats (timestamps,
progress fractions, embedding values) as rationals, Python dict/set state as
explicit record state threaded through the functions.  Network-effectful
collaborators (_process_page's fetch, requests.get, ET.fromstring) are
oracle parameters, exactly at the seams where the source performs I/O.
-/

/-- Whitespace characters recognized by Python str.strip and str.split
(ASCII whitespace; the repository's content is handled bytewise the same way). -/
def pySpace (c : Char) : Bool :=
  c = ' ' || c = '\t' || c = '\n' || c = '\r' || c = '\x0b' || c = '\x0c'

/-- Python str.strip(): drop leading and trailing whitespace. -/
def pyStrip (s : List Char) : List Char :=
  ((s.dropWhile pySpace).reverse.dropWhile pySpace).reverse

/-- The non-whitespace characters of a string, in order. -/
def nonWs (s : List Char) : List Char := s.filter (fun c => !pySpace c)

/-- Helper for pyWords: count words given whether we are inside a word. -/
def wordsAux : Bool → List Char → Nat
  | _, [] => 0
  | inWord, c :: rest =>
      if pySpace c then wordsAux false rest
      else (if inWord then 0 else 1) + wordsAux true rest

/-- Python len(s.split()): the number of maximal non-whitespace runs. -/
def pyWords (s : List Char) : Nat := wordsAux false s

/-- Count the leading '#' characters of a string. -/
def countHashes : List Char → Nat
  | [] => 0
  | c :: rest => if c = '#' then countHashes rest + 1 else 0

/-- Match the chunking delimiter regex (\n\n|\n#{1,6} ) of
DeepCrawler._chunk_markdown (master_crawl.py line 593) at the head of the
string: two newlines, or a newline followed by one to six hashes and a
space.  The alternation prefers the two-newline branch, as re does.
Returns the matched delimiter and the remainder. -/
def matchDelim : List Char → Option (List Char × List Char)
  | [] => none
  | c :: rest =>
      if c = '\n' then
        match rest with
        | [] => none
        | c2 :: rest2 =>
            if c2 = '\n' then some (['\n', '\n'], rest2)
            else
              if 1 ≤ countHashes rest ∧ countHashes rest ≤ 6 then
                match rest.drop (countHashes rest) with
                | [] => none
                | c3 :: rest3 =>
                    if c3 = ' ' then
                      some ('\n' :: (List.replicate (countHashes rest) '#' ++ [' ']), rest3)
                    else none
              else none
      else none

/-- One scanning pass of re.split with a capturing group: emit the text
before each match, the matched delimiter itself, and continue after it.
Fuel bounds the recursion; each step consumes at least one character, so
fuel equal to the string length suffices, and the fuel-exhaustion case is
chosen so that joining the parts always reproduces the input. -/
def splitGo : Nat → List Char → List Char → List (List Char)
  | _, [], acc => [acc.reverse]
  | 0, s, acc => [acc.reverse ++ s]
  | fuel + 1, c :: rest, acc =>
      match matchDelim (c :: rest) with
      | some (d, r2) => acc.reverse :: d :: splitGo fuel r2 []
      | none => splitGo fuel rest (c :: acc)

/-- Python re.split(r'(\n\n|\n#{1,6} )', markdown_text): the parts of the
text interleaved with the captured delimiters (master_crawl.py line 594). -/
def pySplit (s : List Char) : List (List Char) := splitGo s.length s []

/-- One content chunk as built by DeepCrawler._chunk_markdown:
ordinal id, stripped content, and word count. -/
structure MdChunk where
  id : Nat
  content : List Char
  wordCount : Nat
  deriving DecidableEq, Repr

/-- Build the chunk dictionary appended by _chunk_markdown
(master_crawl.py lines 608 and 620): content is current_chunk.strip(),
word_count is len(current_chunk.split()). -/
def mkChunk (idx : Nat) (cur : List Char) : MdChunk :=
  { id := idx, content := pyStrip cur, wordCount := pyWords cur }

/-- The accumulation loop of DeepCrawler._chunk_markdown
(master_crawl.py lines 601 to 624): skip parts that strip to empty, flush
the running chunk when adding the next part would exceed max_chunk_size and
the running chunk is non-empty, and emit a final chunk for any trailing
content whose strip is non-empty. -/
def chunkLoop (maxSize : Nat) : List (List Char) → List Char → Nat → List MdChunk → List MdChunk
  | [], cur, idx, acc =>
      if pyStrip cur ≠ [] then acc ++ [mkChunk idx cur] else acc
  | pt :: rest, cur, idx, acc =>
      if pyStrip pt = [] then chunkLoop maxSize rest cur idx acc
      else if cur.length + pt.length > maxSize ∧ cur ≠ [] then
        chunkLoop maxSize rest pt (idx + 1) (acc ++ [mkChunk idx cur])
      else chunkLoop maxSize rest (cur ++ pt) idx acc

/-- DeepCrawler._chunk_markdown (master_crawl.py lines 584 to 626): split
markdown on paragraph breaks and heading markers and greedily accumulate
the parts into bounded chunks.  Returns [] for empty input. -/
def chunkMarkdown (md : List Char) (maxSize : Nat) : List MdChunk :=
  if md = [] then [] else chunkLoop maxSize (pySplit md) [] 0 []

/-- The embedding-dimension normalization of DeepCrawler._get_embedding
(master_crawl.py lines 550 to 570): pad with zeros up to 1536 entries, or
truncate down to 1536 entries. -/
def normalizeEmbedding (embedding : List ℚ) : List ℚ :=
  let currentDim := embedding.length
  let expectedDim := 1536
  if currentDim ≠ expectedDim then
    if currentDim < expectedDim then
      embedding ++ List.replicate (expectedDim - currentDim) 0
    else embedding.take expectedDim
  else embedding

/-- Python list repetition l * n: n concatenated copies of l. -/
def listRepeat (l : List ℚ) : Nat → List ℚ
  | 0 => []
  | n + 1 => l ++ listRepeat l n

/-- The embedding-dimension normalization of SupabaseAdapter.generate_embedding
(db_adapter.py lines 512 to 525): pad by cyclic repetition,
(embedding * (dims // current + 1))[:dims], or truncate.  Only reached with a
non-empty embedding (guarded by the if embedding check in the source). -/
def dbNormalizeEmbedding (dims : Nat) (embedding : List ℚ) : List ℚ :=
  let currentDim := embedding.length
  if currentDim < dims then
    (listRepeat embedding (dims / currentDim + 1)).take dims
  else if currentDim > dims then embedding.take dims
  else embedding

/-- Exceptions that the modelled fragments of the source can raise. -/
inductive PyErr
  | attributeError
  | indexError
  | requestError
  | parseError
  deriving DecidableEq, Repr

/-- The eviction loop of wait_for_rate_limit (master_crawl.py lines 202
to 203): pop timestamps from the front while they are more than one second
old. -/
def evictOld (now : ℚ) : List ℚ → List ℚ
  | [] => []
  | t :: rest => if now - t > 1 then evictOld now rest else t :: rest

/-- The minimum-spacing step of wait_for_rate_limit (master_crawl.py lines
215 to 219), entered after the current timestamp was appended.  In the
source the branch that should sleep executes time.sleep, but crawl_many
does from time import time (line 173), so the name time is the function
time.time in this scope and time.sleep raises AttributeError. -/
def minIntervalStep (now : ℚ) (times : List ℚ) : List ℚ × Option PyErr :=
  if times.length > 1 then
    let last := times.getD (times.length - 2) 0
    if now - last < 1 / 10 then (times, some .attributeError) else (times, none)
  else (times, none)

/-- The wait_for_rate_limit closure of DeepCrawler.crawl_many
(master_crawl.py lines 198 to 219), as a function of the current time and
the shared request_times ledger.  Returns the updated ledger and the
exception it raises, if any: because from time import time shadows the
time module inside crawl_many, every branch that reaches time.sleep raises
AttributeError instead of sleeping; with max_concurrent_requests = 0 and an
empty ledger the subscript request_times[0] raises IndexError. -/
def waitForRateLimit (maxConc : Nat) (now : ℚ) (times : List ℚ) : List ℚ × Option PyErr :=
  let t1 := evictOld now times
  if t1.length ≥ maxConc then
    match t1 with
    | [] => ([], some .indexError)
    | t0 :: _ =>
      if t0 + 1 - now > 0 then (t1, some .attributeError)
      else minIntervalStep now (t1 ++ [now])
  else minIntervalStep now (t1 ++ [now])

/-- The fields of a page_info dictionary that DeepCrawler's crawl logic
reads: the outbound links list (page_info.get("links", [])).  The remaining
content of the record (markdown, chunks, summary, metadata, embedding) is
produced by the network-dependent extraction pipeline and is carried
opaquely as a payload tag so distinct records stay distinguishable. -/
structure PageInfo where
  links : List String
  payload : Nat := 0
  deriving DecidableEq, Repr

/-- Progress-callback invocations of the engine, one constructor per
callback site of verify_links, crawl_many and crawl_single_url. -/
inductive CrawlEvent
  | processingPage (url : String)
  | processingLink (pos total : Nat) (url : String)
  | linkError (url : String)
  | processingUrl (url : String)
  | crawlError (url : String)
  | noUrls
  | manyStart (n : Nat)
  | manyMaxDepth (d : Int)
  | manyMaxConc (m : Nat)
  | completedCrawl (url : String) (pos total : Nat)
  | failedCrawl (url : String) (pos total : Nat)
  | manyDone (pages starts : Nat)
  deriving DecidableEq, Repr

/-- The mutable state of one DeepCrawler instance relevant to the crawl
claims: visited_urls, results, the log of URLs passed to _process_page
(for counting invocations), the progress callbacks issued, and the
rate-limiter ledger request_times of crawl_many together with the ambient
clock (the successive values time() returns, consumed per call). -/
structure CrawlState where
  visited : List String
  results : List (String × PageInfo)
  processedLog : List String
  events : List CrawlEvent
  reqTimes : List ℚ
  clock : List ℚ
  deriving DecidableEq, Repr

/-- Append one progress-callback event. -/
def addEvent (e : CrawlEvent) (st : CrawlState) : CrawlState :=
  { st with events := st.events ++ [e] }

/-- Python dict assignment d[k] = v on an insertion-ordered dictionary. -/
def assocSet (k : String) (v : PageInfo) : List (String × PageInfo) → List (String × PageInfo)
  | [] => [(k, v)]
  | (k', v') :: rest => if k' = k then (k, v) :: rest else (k', v') :: assocSet k v rest

/-- Python dict lookup d.get(k). -/
def assocFind (k : String) : List (String × PageInfo) → Option PageInfo
  | [] => none
  | (k', v') :: rest => if k' = k then some v' else assocFind k rest

/-- The possible values of a verify_links call in the source: the empty
dict of the early exits, Python None when _process_page fails, or the
seed's own page_info dictionary. -/
inductive VLRet
  | dictEmpty
  | noneVal
  | record (p : PageInfo)
  deriving DecidableEq, Repr

/-- The entry steps of verify_links on a not-yet-visited URL
(master_crawl.py lines 116 to 124): emit the Processing page callback, add
the URL to visited_urls, then call _process_page (the oracle; the call is
recorded in processedLog). -/
def vlProcess (oracle : String → Option PageInfo) (url : String) (st : CrawlState) :
    Option PageInfo × CrawlState :=
  let st1 := addEvent (.processingPage url) st
  let st2 := { st1 with visited := url :: st1.visited }
  let st3 := { st2 with processedLog := st2.processedLog ++ [url] }
  (oracle url, st3)

/-- The link loop of verify_links (master_crawl.py lines 139 to 152),
parameterized by the recursive call f used for each unvisited link.  The
loop index i and links total feed the Processing link i+1/len callback.
The except branch of the source is unreachable here because the embedded
recursive call raises no exception. -/
def processLinksWith (f : String → CrawlState → VLRet × CrawlState) (total : Nat) :
    Nat → List String → CrawlState → CrawlState
  | _, [], st => st
  | i, l :: ls, st =>
      if l ∈ st.visited then processLinksWith f total (i + 1) ls st
      else
        let st1 := addEvent (.processingLink (i + 1) total l) st
        let st2 := (f l st1).2
        processLinksWith f total (i + 1) ls st2

/-- DeepCrawler.verify_links (master_crawl.py lines 96 to 154) at a
non-negative depth d.  Returns the empty dict if the URL is already
visited; otherwise marks it visited, calls _process_page, stores the
record in results on success, recurses into unvisited links when depth is
positive, and returns the seed's page_info (None when processing failed).
The success-callback block at lines 129 to 134 is dead code in the source:
the page_info dictionary built by _process_page has no top-level title or
content_stats key, so both conditions are always false and no event is
emitted there. -/
def verifyLinksNat (oracle : String → Option PageInfo) :
    Nat → String → CrawlState → VLRet × CrawlState
  | 0, url, st =>
      if url ∈ st.visited then (.dictEmpty, st)
      else
        match vlProcess oracle url st with
        | (none, st') => (.noneVal, st')
        | (some p, st') => (.record p, { st' with results := assocSet url p st'.results })
  | d + 1, url, st =>
      if url ∈ st.visited then (.dictEmpty, st)
      else
        match vlProcess oracle url st with
        | (none, st') => (.noneVal, st')
        | (some p, st') =>
            let st'' := { st' with results := assocSet url p st'.results }
            (.record p, processLinksWith (fun l s => verifyLinksNat oracle d l s)
              p.links.length 0 p.links st'')

/-- DeepCrawler.verify_links with the source's integer depth: returns the
empty dict immediately when max_depth < 0 (master_crawl.py line 109). -/
def verifyLinks (oracle : String → Option PageInfo) (d : Int) (url : String)
    (st : CrawlState) : VLRet × CrawlState :=
  if d < 0 then (.dictEmpty, st) else verifyLinksNat oracle d.toNat url st

/-- Read the next value of time() from the ambient clock. -/
def popClock (st : CrawlState) : ℚ × CrawlState :=
  (st.clock.headD 0, { st with clock := st.clock.tail })

/-- One wait_for_rate_limit() call inside crawl_many: consume a clock
tick, update the shared request_times ledger, and surface the exception
the call raises, if any. -/
def rateLimitCall (maxConc : Nat) (st : CrawlState) : Option PyErr × CrawlState :=
  let (now, st1) := popClock st
  let (times', err) := waitForRateLimit maxConc now st1.reqTimes
  (err, { st1 with reqTimes := times' })

/-- The child-link loop of crawl_single_url (master_crawl.py lines 236 to
251): for each link not yet visited, call wait_for_rate_limit and then
verify_links at depth max_depth - 1; the per-link try/except catches the
AttributeError that wait_for_rate_limit raises and continues with the
next sibling, emitting the error callback. -/
def crawlLinks (oracle : String → Option PageInfo) (maxConc : Nat) (d : Int) (total : Nat) :
    Nat → List String → CrawlState → CrawlState
  | _, [], st => st
  | i, l :: ls, st =>
      if l ∈ st.visited then crawlLinks oracle maxConc d total (i + 1) ls st
      else
        match rateLimitCall maxConc st with
        | (some _, st1) => crawlLinks oracle maxConc d total (i + 1) ls (addEvent (.linkError l) st1)
        | (none, st1) =>
            let st2 := addEvent (.processingLink (i + 1) total l) st1
            let st3 := (verifyLinks oracle (d - 1) l st2).2
            crawlLinks oracle maxConc d total (i + 1) ls st3

/-- The crawl_single_url worker of crawl_many (master_crawl.py lines 222
to 259).  It calls wait_for_rate_limit, then _process_page on the seed
without consulting or updating visited_urls, stores a successful record in
results, and walks the child links.  The outer try/except turns an
exception from the first rate-limit call (the shadowed-time AttributeError)
into a None return with the Error crawling callback. -/
def crawlSingleUrl (oracle : String → Option PageInfo) (maxConc : Nat) (maxDepth : Int)
    (url : String) (st : CrawlState) : Option PageInfo × CrawlState :=
  match rateLimitCall maxConc st with
  | (some _, st1) => (none, addEvent (.crawlError url) st1)
  | (none, st1) =>
      let st2 := addEvent (.processingUrl url) st1
      let st3 := { st2 with processedLog := st2.processedLog ++ [url] }
      match oracle url with
      | none => (none, st3)
      | some p =>
          let st4 := { st3 with results := assocSet url p st3.results }
          if maxDepth > 0 then
            (some p, crawlLinks oracle maxConc maxDepth p.links.length 0 p.links st4)
          else (some p, st4)

/-- Run the pool workers of crawl_many one after another in submission
order.  This is ONE admissible schedule of the thread pool, used below
only to exhibit a concrete counterexample run (the duplicate-seed
double-processing occurs under every schedule because crawl_single_url
never consults the visited set).  Interleaved schedules are not modelled:
in the source, two workers can race through the window between
verify_links' visited check (master_crawl.py line 113) and its add (line
121) and both process the same child link, so no at-most-once bound for
crawl_many is claimed or proved from this definition. -/
def crawlSeeds (oracle : String → Option PageInfo) (maxConc : Nat) (maxDepth : Int) :
    List String → CrawlState → List (String × Option PageInfo) × CrawlState
  | [], st => ([], st)
  | u :: us, st =>
      let (r, st1) := crawlSingleUrl oracle maxConc maxDepth u st
      let (rs, st2) := crawlSeeds oracle maxConc maxDepth us st1
      ((u, r) :: rs, st2)

/-- The future-collection loop of crawl_many (master_crawl.py lines 267 to
282): emit the per-seed completion or failure callback in submission
order. -/
def reportResults : Nat → Nat → List (String × Option PageInfo) → CrawlState → CrawlState
  | _, _, [], st => st
  | i, total, (u, r) :: rs, st =>
      let ev := match r with
        | some _ => CrawlEvent.completedCrawl u (i + 1) total
        | none => CrawlEvent.failedCrawl u (i + 1) total
      reportResults (i + 1) total rs (addEvent ev st)

/-- DeepCrawler.crawl_many (master_crawl.py lines 156 to 288): with no
URLs, return the empty dict (without resetting results); otherwise emit
the start callbacks, reset results, run one worker per seed, report each
future, and return self.results. -/
def crawlMany (oracle : String → Option PageInfo) (urls : List String) (maxDepth : Int)
    (maxConc : Nat) (st : CrawlState) : List (String × PageInfo) × CrawlState :=
  if urls = [] then ([], addEvent .noUrls st)
  else
    let st1 := addEvent (.manyMaxConc maxConc)
      (addEvent (.manyMaxDepth maxDepth) (addEvent (.manyStart urls.length) st))
    let st2 := { st1 with results := [] }
    let (rs, st3) := crawlSeeds oracle maxConc maxDepth urls st2
    let st4 := reportResults 0 urls.length rs st3
    let st5 := addEvent (.manyDone st4.results.length urls.length) st4
    (st5.results, st5)

/-- A freshly constructed DeepCrawler: empty visited set, empty results,
nothing processed, with a given ambient clock. -/
def initCrawlState (clock : List ℚ) : CrawlState :=
  { visited := [], results := [], processedLog := [], events := [], reqTimes := [], clock := clock }

/-- A sequence of verify_links invocations on one engine instance, run one
after another (verify_links itself spawns no threads; concurrent
invocations arise only inside crawl_many's pool, which is treated
separately). -/
def runVerifies (oracle : String → Option PageInfo) :
    List (String × Int) → CrawlState → CrawlState
  | [], st => st
  | (url, d) :: calls, st => runVerifies oracle calls ((verifyLinks oracle d url st).2)

/-- The substring that sync_update_progress looks for to bump
pages_crawled (api_bridge.py line 388). -/
def successPat : List Char := "Successfully processed:".toList

/-- Python s.split(sep) for a non-empty separator: the segments of s
between non-overlapping occurrences of sep.  Fuel equal to the string
length suffices. -/
def splitOnAux (pat : List Char) : Nat → List Char → List Char → List (List Char)
  | _, [], acc => [acc.reverse]
  | 0, s, acc => [acc.reverse ++ s]
  | f + 1, c :: rest, acc =>
      if pat.isPrefixOf (c :: rest) then
        acc.reverse :: splitOnAux pat f ((c :: rest).drop pat.length) []
      else splitOnAux pat f rest (c :: acc)

/-- Python s.split(sep). -/
def pySplitOn (pat s : List Char) : List (List Char) := splitOnAux pat s.length s []

/-- Python substring containment, pat in s. -/
def hasInfix (pat : List Char) : List Char → Bool
  | [] => pat.isEmpty
  | c :: rest => pat.isPrefixOf (c :: rest) || hasInfix pat rest

/-- The job state tracked by api_bridge.JobState (api_bridge.py lines 52
to 63), restricted to the fields the claims are about. -/
structure JobState where
  status : String
  progress : ℚ
  pagesCrawled : Nat
  currentPage : Option (List Char)
  progressLogs : List (List Char)
  deriving DecidableEq, Repr

/-- A freshly created JobState (api_bridge.py lines 55 to 63). -/
def initJobState : JobState :=
  { status := "pending", progress := 0, pagesCrawled := 0,
    currentPage := none, progressLogs := [] }

/-- The sync_update_progress callback of process_crawl (api_bridge.py
lines 378 to 405): append the message to progress_logs; if the message
contains Successfully processed:, bump pages_crawled and set current_page
from the text after the marker.  It never writes progress. -/
def syncUpdateProgress (m : List Char) (js : JobState) : JobState :=
  let js1 := { js with progressLogs := js.progressLogs ++ [m] }
  if hasInfix successPat m then
    { js1 with pagesCrawled := js1.pagesCrawled + 1,
               currentPage := some (pyStrip ((pySplitOn successPat m).getD 1 [])) }
  else js1

/-- JobState.add_log (api_bridge.py lines 65 to 92) and the update_progress
helpers built on it: append the message to progress_logs. -/
def addLog (m : List Char) (js : JobState) : JobState :=
  { js with progressLogs := js.progressLogs ++ [m] }

/-- JobState.update_status (api_bridge.py lines 94 to 97): set status.
The completion timestamp and the delayed cleanup task carry no job-state
fields the claims mention. -/
def updateStatus (s : String) (js : JobState) : JobState :=
  { js with status := s }

/-- The parts of a successful _process_page result that
process_page_with_progress reads for its follow-up messages: the metadata
title (always present on a successful record), whether an embedding was
attached, and the content word and chunk counts (always present on a
successful record). -/
structure PageMeta where
  title : List Char
  hasEmbedding : Bool
  wordCount : Nat
  chunkCount : Nat
  deriving DecidableEq, Repr

/-- Decimal rendering of a count for the stats message. -/
def natToChars (n : Nat) : List Char := (toString n).toList

/-- The Content stats message assembled at api_bridge.py lines 425 to 432. -/
def statsMessage (w c : Nat) : List Char :=
  "  Content stats: ".toList ++ natToChars w ++ " words, ".toList
    ++ natToChars c ++ " chunks".toList

/-- The effective page denominator max_pages or 50 of api_bridge.py line
412.  request.max_pages is an unvalidated Python int (api_bridge.py line
195), so it can be negative; Python's or replaces only a falsy 0 by the
default 50 and passes every other value — including negative ones —
through to the division. -/
def jobMaxPages (maxPages : Int) : ℚ := if maxPages = 0 then 50 else maxPages

/-- The entry steps of process_page_with_progress (api_bridge.py lines
409 to 412): log the page, set current_page, bump pages_crawled, and set
progress to min(0.9, pages_crawled / (max_pages or 50)). -/
def pageStartUpdate (maxPages : Int) (url : List Char) (js : JobState) : JobState :=
  let js1 := syncUpdateProgress ("Processing page: ".toList ++ url) js
  let js2 := { js1 with currentPage := some url, pagesCrawled := js1.pagesCrawled + 1 }
  { js2 with progress := min (9 / 10) (js2.pagesCrawled / jobMaxPages maxPages) }

/-- The result-dependent messages of process_page_with_progress
(api_bridge.py lines 414 to 438): the success message (which re-enters
sync_update_progress's counting branch), the title, the optional
embeddings confirmation and the content stats, or the failure message. -/
def pageResultMessages (url : List Char) (res : Option PageMeta) (js : JobState) : JobState :=
  match res with
  | some meta =>
      let js4 := syncUpdateProgress ("✓ Successfully processed: ".toList ++ url) js
      let js5 := syncUpdateProgress ("  Title: ".toList ++ meta.title) js4
      let js6 := if meta.hasEmbedding then
          syncUpdateProgress ("✓ Generated embeddings for: ".toList ++ url) js5
        else js5
      syncUpdateProgress (statsMessage meta.wordCount meta.chunkCount) js6
  | none => syncUpdateProgress ("✗ Failed to process: ".toList ++ url) js

/-- The process_page_with_progress wrapper installed over _process_page
(api_bridge.py lines 407 to 438): the progress update followed by the
wrapped processing (its outcome is the res argument here) and its
messages. -/
def processPageWithProgress (maxPages : Int) (url : List Char) (res : Option PageMeta)
    (js : JobState) : JobState :=
  pageResultMessages url res (pageStartUpdate maxPages url js)

/-- One job-state mutation during the crawling phase of process_crawl:
an instrumented page processing, a log line, or a status transition.
These are the only operations that touch the job state between creation
and the completion transition (api_bridge.py lines 270 to 656). -/
inductive JobOp
  | page (url : List Char) (res : Option PageMeta)
  | logMsg (m : List Char)
  | setStatus (s : String)

/-- Apply one job operation. -/
def jobStep (maxPages : Int) (js : JobState) : JobOp → JobState
  | .page url res => processPageWithProgress maxPages url res js
  | .logMsg m => addLog m js
  | .setStatus s => updateStatus s js

/-- Run a sequence of job operations. -/
def jobRun (maxPages : Int) (ops : List JobOp) (js : JobState) : JobState :=
  ops.foldl (jobStep maxPages) js

/-- The completion transition of process_crawl (api_bridge.py lines 656
to 660): set progress to 1.0 and status to completed. -/
def completeJob (js : JobState) : JobState :=
  updateStatus "completed" { js with progress := 1 }

/-- The successive job states of one job's lifetime: creation, each
crawling-phase operation in order, then the final completion transition. -/
def jobTrace (maxPages : Int) (ops : List JobOp) : List JobState :=
  List.scanl (jobStep maxPages) initJobState ops ++ [completeJob (jobRun maxPages ops initJobState)]

/-- An XML element as xml.etree.ElementTree exposes it: tag (with an
optional namespace wrapped in braces), attributes, text, children. -/
inductive Xml
  | elem (tag : String) (attrs : List (String × String)) (text : Option String)
      (children : List Xml)

/-- The tag of an element. -/
def Xml.tag : Xml → String
  | .elem t _ _ _ => t

/-- The attributes of an element. -/
def Xml.attrs : Xml → List (String × String)
  | .elem _ a _ _ => a

/-- The text of an element. -/
def Xml.text : Xml → Option String
  | .elem _ _ tx _ => tx

/-- Drop a namespace wrapper from an ElementTree tag: the characters after
the closing brace, if one occurs. -/
def dropThroughBrace : List Char → Option (List Char)
  | [] => none
  | c :: rest => if c = '}' then some rest else dropThroughBrace rest

/-- The local part of an ElementTree tag, used by the namespace wildcard
in find / findall. -/
def localTag (t : String) : String :=
  match dropThroughBrace t.toList with
  | some r => String.mk r
  | none => t

/-- Python str.endswith. -/
def strEndsWith (t sfx : String) : Bool := sfx.toList.isSuffixOf t.toList

/-- Python str.strip on the String wrapper. -/
def strStrip (s : String) : String := String.mk (pyStrip s.toList)

mutual
/-- The proper descendants of an element in document order, as
element.findall('.//...') iterates them. -/
def xmlDescendants : Xml → List Xml
  | .elem _ _ _ cs => xmlDescList cs
/-- The elements of a forest together with their descendants, in document
order. -/
def xmlDescList : List Xml → List Xml
  | [] => []
  | x :: xs => x :: xmlDescendants x ++ xmlDescList xs
end

/-- element.findall('.//' + a namespace-wildcard tag): every descendant
whose local tag matches, in document order. -/
def findAllStar (x : Xml) (t : String) : List Xml :=
  (xmlDescendants x).filter (fun e => localTag e.tag = t)

/-- element.find('.//' + a namespace-wildcard tag): the first such
descendant. -/
def findStar (x : Xml) (t : String) : Option Xml :=
  (findAllStar x t).head?

/-- The loc-collection step shared by the urlset and sitemapindex branches
of parse_sitemap (master_crawl.py lines 318 to 332): for each element,
take its first loc descendant's text when that text is truthy, stripped. -/
def collectLocs (elems : List Xml) : List String :=
  elems.filterMap (fun e =>
    match findStar e "loc" with
    | none => none
    | some l =>
        match l.text with
        | some t => if t ≠ "" then some (strStrip t) else none
        | none => none)

/-- The link extraction of the RSS/Atom branch of parse_sitemap
(master_crawl.py lines 340 to 349): the item's first link descendant's
text if truthy, else its href attribute if present, stripped. -/
def rssLink (item : Xml) : Option String :=
  match findStar item "link" with
  | none => none
  | some l =>
      match l.text with
      | some t =>
          if t ≠ "" then some (strStrip t)
          else
            match l.attrs.lookup "href" with
            | some h => some (strStrip h)
            | none => none
      | none =>
          match l.attrs.lookup "href" with
          | some h => some (strStrip h)
          | none => none

/-- DeepCrawler.parse_sitemap (master_crawl.py lines 290 to 356).  The
network fetch (requests.get plus raise_for_status) and the XML parser
(ET.fromstring) are oracles; their failures are the exceptions the
enclosing try catches, upon which the function returns the empty list.
The sitemapindex branch recurses into each child sitemap; fuel bounds that
recursion (the source relies on the sitemap graph being finite). -/
def parseSitemap (fetch : String → Except PyErr String) (parseXml : String → Except PyErr Xml) :
    Nat → String → List String
  | 0, _ => []
  | fuel + 1, sitemapUrl =>
      match fetch sitemapUrl with
      | .error _ => []
      | .ok body =>
          match parseXml body with
          | .error _ => []
          | .ok root =>
              if strEndsWith root.tag "urlset" then
                collectLocs (findAllStar root "url")
              else if strEndsWith root.tag "sitemapindex" then
                (collectLocs (findAllStar root "sitemap")).flatMap
                  (parseSitemap fetch parseXml fuel)
              else if strEndsWith root.tag "rss" || strEndsWith root.tag "feed" then
                let items :=
                  match findAllStar root "item" with
                  | [] => findAllStar root "entry"
                  | it => it
                items.filterMap rssLink
              else []

/-- Concatenation of a list of strings, used to state the chunker
round-trip property. -/
def joinChars : List (List Char) → List Char
  | [] => []
  | x :: xs => x ++ joinChars xs

/-- Counting potential for the deduplication bound: how many times u was
passed to _process_page, plus one budget if u is not yet visited.  Every
visited-set-guarded processing of u spends the budget; every crawl_many
seed processing of u is paid for by its seed occurrence. -/
def phi (u : String) (st : CrawlState) : Nat :=
  st.processedLog.count u + (if u ∈ st.visited then 0 else 1)

/-- Claim C2: the spec says wait_for_rate_limit blocks by sleeping when
the rolling 1-second window already holds max_concurrent_requests
timestamps, then records the request and returns normally.  The code
instead raises AttributeError on that path: crawl_many's from time import
time makes the name time the function time.time, so time.sleep does not
exist.  Concrete failing run: max_concurrent_requests = 1, ledger [1.0],
call at time 1.5; the window is full and the sleep branch raises, leaving
the ledger unchanged and the request unrecorded. -/
theorem rateLimit_full_window_raises :
    waitForRateLimit 1 (3 / 2) [1] = ([1], some PyErr.attributeError) := by
  norm_num [waitForRateLimit, evictOld, minIntervalStep]

/-- Claim C1, counterexample: crawl_many given the same URL as two seeds
invokes _process_page twice on that URL — crawl_single_url neither checks
nor updates visited_urls for its seed — so processing is not at-most-once
per distinct URL.  The clock spaces the two workers 1 second apart so
the rate limiter does not interfere. -/
theorem crawlMany_duplicate_seed_processed_twice :
    (((crawlMany (fun _ => some { links := [], payload := 0 })
        ["https://dup.test/", "https://dup.test/"] 0 5
        (initCrawlState [0, 1])).2.processedLog).count "https://dup.test/" = 2) ∧
    ¬ ((((crawlMany (fun _ => some { links := [], payload := 0 })
        ["https://dup.test/", "https://dup.test/"] 0 5
        (initCrawlState [0, 1])).2.processedLog).count "https://dup.test/") ≤ 1) := by
  constructor
  · norm_num [crawlMany, crawlSeeds, crawlSingleUrl, rateLimitCall, popClock, waitForRateLimit,
      evictOld, minIntervalStep, addEvent, assocSet, reportResults, initCrawlState]
    decide
  · norm_num [crawlMany, crawlSeeds, crawlSingleUrl, rateLimitCall, popClock, waitForRateLimit,
      evictOld, minIntervalStep, addEvent, assocSet, reportResults, initCrawlState]
    decide

/-- Claim C3, counterexample: verify_links does not return the url-keyed
map accumulated during the call.  On a fresh engine with depth 0 and a
seed whose processing fails, the accumulated map is empty — the claimed
return would be the empty dict — but the function returns page_info,
which is Python None here, not the empty dict (master_crawl.py line 154
returns page_info, never self.results). -/
theorem verifyLinks_return_is_not_results_map :
    (verifyLinks (fun _ => none) 0 "https://seed.test/" (initCrawlState [])).1 = VLRet.noneVal ∧
    ((verifyLinks (fun _ => none) 0 "https://seed.test/" (initCrawlState [])).2).results = [] ∧
    VLRet.noneVal ≠ VLRet.dictEmpty := by
  refine ⟨by decide, by decide, by decide⟩

/-- Both early exits of verify_links (master_crawl.py lines 109 to 114)
return the empty dict with the state untouched. -/
lemma verifyLinks_early_exit_aux (oracle : String → Option PageInfo) (d : Int)
    (url : String) (st : CrawlState) (h : d < 0 ∨ url ∈ st.visited) :
    verifyLinks oracle d url st = (VLRet.dictEmpty, st) := by
  by_cases hd : d < 0
  · simp [verifyLinks, hd]
  · rcases h with h | h
    · exact absurd h hd
    · cases hn : d.toNat with
      | zero => simp [verifyLinks, hd, hn, verifyLinksNat, h]
      | succ n => simp [verifyLinks, hd, hn, verifyLinksNat, h]

/-- Claim C4: a verify_links call with max_depth < 0 or an
already-visited seed returns the empty dict and leaves the engine state —
visited set, results map, processed log, callback log, rate-limiter
ledger and clock — completely unchanged, issuing no callback and no page
processing (master_crawl.py lines 109 to 114 return before any effect). -/
theorem verifyLinks_early_exit_no_effects (oracle : String → Option PageInfo) (d : Int)
    (url : String) (st : CrawlState) (h : d < 0 ∨ url ∈ st.visited) :
    verifyLinks oracle d url st = (VLRet.dictEmpty, st) :=
  verifyLinks_early_exit_aux oracle d url st h

/-- Witness for C4 at depth -1 on a fresh engine. -/
theorem verifyLinks_early_exit_no_effects_witness :
    ((-1 : Int) < 0 ∨ "https://a.test/" ∈ (initCrawlState []).visited) ∧
    verifyLinks (fun _ => none) (-1) "https://a.test/" (initCrawlState [])
      = (VLRet.dictEmpty, initCrawlState []) :=
  ⟨Or.inl (by decide),
   verifyLinks_early_exit_no_effects _ _ _ _ (Or.inl (by decide))⟩

/-- Claim C9: parse_sitemap returns the empty list, raising nothing to
its caller, whenever the fetch of the sitemap document fails or the
fetched body fails to parse as XML — the whole body sits in one
try/except returning [] (master_crawl.py lines 301 to 356). -/
theorem parseSitemap_failure_empty (fetch : String → Except PyErr String)
    (parseXml : String → Except PyErr Xml) (url : String) (fuel : Nat) :
    (∀ e, fetch url = Except.error e → parseSitemap fetch parseXml (fuel + 1) url = []) ∧
    (∀ body e, fetch url = Except.ok body → parseXml body = Except.error e →
      parseSitemap fetch parseXml (fuel + 1) url = []) := by
  constructor
  · intro e h
    simp [parseSitemap, h]
  · intro body e hf hp
    simp [parseSitemap, hf, hp]

/-- Witness for C9: concrete failing fetch and failing parse oracles. -/
theorem parseSitemap_failure_empty_witness :
    parseSitemap (fun _ => Except.error PyErr.requestError)
      (fun _ => Except.error PyErr.parseError) 1 "https://x.test/sitemap.xml" = [] ∧
    parseSitemap (fun _ => Except.ok "<oops")
      (fun _ => Except.error PyErr.parseError) 1 "https://x.test/sitemap.xml" = [] :=
  ⟨(parseSitemap_failure_empty (fun _ => Except.error PyErr.requestError)
      (fun _ => Except.error PyErr.parseError) "https://x.test/sitemap.xml" 0).1
      PyErr.requestError rfl,
   (parseSitemap_failure_empty (fun _ => Except.ok "<oops")
      (fun _ => Except.error PyErr.parseError) "https://x.test/sitemap.xml" 0).2
      "<oops" PyErr.parseError rfl rfl⟩

set_option maxRecDepth 40000 in
/-- Claim C7, counterexample: the page-embedding normalization of
master_crawl._get_embedding pads with zeros, not by cyclic repetition of
the original values: on the all-ones vector of dimension 500 it disagrees
with the cyclic-repetition padding (which db_adapter.generate_embedding
implements) — position 500 is 0.0, not a repeat of the vector. -/
theorem pageEmbedding_padding_not_cyclic :
    normalizeEmbedding (List.replicate 500 (1 : ℚ))
      ≠ dbNormalizeEmbedding 1536 (List.replicate 500 (1 : ℚ)) := by decide

/-- Claim C7, amended: a 500-dimensional embedding normalized for a page
becomes exactly 1536 values whose first 500 equal the original vector;
the remaining 1036 positions are zero-filled by _get_embedding
(master_crawl.py lines 556 to 561), while cyclic-repetition padding —
(v * 4)[:1536] — is what db_adapter.generate_embedding applies in its own
path (db_adapter.py lines 516 to 519). -/
theorem embedding_padding_dim500 (v : List ℚ) (h : v.length = 500) :
    (normalizeEmbedding v).length = 1536 ∧
    (normalizeEmbedding v).take 500 = v ∧
    (normalizeEmbedding v).drop 500 = List.replicate 1036 (0 : ℚ) ∧
    (dbNormalizeEmbedding 1536 v).length = 1536 ∧
    (dbNormalizeEmbedding 1536 v).take 500 = v ∧
    dbNormalizeEmbedding 1536 v = (listRepeat v 4).take 1536 := by
  have hne : normalizeEmbedding v = v ++ List.replicate 1036 (0 : ℚ) := by
    norm_num [normalizeEmbedding, h]
  have hdb : dbNormalizeEmbedding 1536 v = (listRepeat v 4).take 1536 := by
    norm_num [dbNormalizeEmbedding, h]
  have hlen4 : (listRepeat v 4).length = 2000 := by
    simp [listRepeat, h]
  refine ⟨?_, ?_, ?_, ?_, ?_, hdb⟩
  · rw [hne, List.length_append, List.length_replicate, h]
  · rw [hne, ← h, List.take_left]
  · rw [hne, ← h, List.drop_left]
  · rw [hdb, List.length_take, hlen4]
    omega
  · rw [hdb, List.take_take]
    have hm : min 500 1536 = 500 := by omega
    rw [hm]
    have h4 : listRepeat v 4 = v ++ listRepeat v 3 := rfl
    rw [h4, ← h, List.take_left]

/-- Witness for the amended C7 at the all-ones 500-dimensional vector. -/
theorem embedding_padding_dim500_witness :
    (List.replicate 500 (1 : ℚ)).length = 500 ∧
    ((normalizeEmbedding (List.replicate 500 (1 : ℚ))).length = 1536 ∧
     (normalizeEmbedding (List.replicate 500 (1 : ℚ))).take 500 = List.replicate 500 (1 : ℚ) ∧
     (normalizeEmbedding (List.replicate 500 (1 : ℚ))).drop 500 = List.replicate 1036 (0 : ℚ) ∧
     (dbNormalizeEmbedding 1536 (List.replicate 500 (1 : ℚ))).length = 1536 ∧
     (dbNormalizeEmbedding 1536 (List.replicate 500 (1 : ℚ))).take 500
        = List.replicate 500 (1 : ℚ) ∧
     dbNormalizeEmbedding 1536 (List.replicate 500 (1 : ℚ))
        = (listRepeat (List.replicate 500 (1 : ℚ)) 4).take 1536) :=
  ⟨List.length_replicate 500 1,
   embedding_padding_dim500 (List.replicate 500 (1 : ℚ)) (List.length_replicate 500 1)⟩

/-- Appending a callback event leaves visited, results and processedLog
unchanged. -/
lemma phi_addEvent (u : String) (e : CrawlEvent) (st : CrawlState) :
    phi u (addEvent e st) = phi u st := rfl

/-- The link loop only grows the visited set, provided each recursive
call does. -/
lemma processLinksWith_visited_mono (f : String → CrawlState → VLRet × CrawlState)
    (hf : ∀ l s x, x ∈ s.visited → x ∈ ((f l s).2).visited) (total : Nat) :
    ∀ (ls : List String) (i : Nat) (st : CrawlState) (x : String),
      x ∈ st.visited → x ∈ (processLinksWith f total i ls st).visited := by
  intro ls
  induction ls with
  | nil => intro i st x hx; simpa [processLinksWith] using hx
  | cons l ls ih =>
      intro i st x hx
      by_cases hv : l ∈ st.visited
      · simpa [processLinksWith, hv] using ih (i + 1) st x hx
      · simp only [processLinksWith, hv, if_neg, ite_false]
        exact ih (i + 1) _ x (hf l _ x hx)

/-- verify_links at a Nat depth only grows the visited set. -/
lemma verifyLinksNat_visited_mono (oracle : String → Option PageInfo) :
    ∀ (d : Nat) (url : String) (st : CrawlState) (x : String),
      x ∈ st.visited → x ∈ ((verifyLinksNat oracle d url st).2).visited := by
  intro d
  induction d with
  | zero =>
      intro url st x hx
      by_cases hv : url ∈ st.visited
      · simpa [verifyLinksNat, hv] using hx
      · cases h : oracle url with
        | none => simp [verifyLinksNat, hv, vlProcess, addEvent, h, List.mem_cons]; exact Or.inr hx
        | some p => simp [verifyLinksNat, hv, vlProcess, addEvent, h, List.mem_cons]; exact Or.inr hx
  | succ d ih =>
      intro url st x hx
      by_cases hv : url ∈ st.visited
      · simpa [verifyLinksNat, hv] using hx
      · cases h : oracle url with
        | none => simp [verifyLinksNat, hv, vlProcess, addEvent, h, List.mem_cons]; exact Or.inr hx
        | some p =>
            simp only [verifyLinksNat, hv, vlProcess, addEvent, h, if_neg, ite_false]
            exact processLinksWith_visited_mono _ (fun l s y hy => ih l s y hy) _ _ _ _ x
              (List.mem_cons_of_mem _ hx)

/-- verify_links only grows the visited set. -/
lemma verifyLinks_visited_mono (oracle : String → Option PageInfo) (d : Int) (url : String)
    (st : CrawlState) (x : String) (hx : x ∈ st.visited) :
    x ∈ ((verifyLinks oracle d url st).2).visited := by
  by_cases hd : d < 0
  · simpa [verifyLinks, hd] using hx
  · simpa [verifyLinks, hd] using verifyLinksNat_visited_mono oracle d.toNat url st x hx

/-- A not-yet-visited URL is in the visited set after verify_links at a
Nat depth processes it, whatever _process_page returns. -/
lemma verifyLinksNat_marks_visited (oracle : String → Option PageInfo) :
    ∀ (d : Nat) (url : String) (st : CrawlState), url ∉ st.visited →
      url ∈ ((verifyLinksNat oracle d url st).2).visited := by
  intro d
  cases d with
  | zero =>
      intro url st hv
      cases h : oracle url with
      | none => simp [verifyLinksNat, hv, vlProcess, addEvent, h]
      | some p => simp [verifyLinksNat, hv, vlProcess, addEvent, h]
  | succ d =>
      intro url st hv
      cases h : oracle url with
      | none => simp [verifyLinksNat, hv, vlProcess, addEvent, h]
      | some p =>
          simp only [verifyLinksNat, hv, vlProcess, addEvent, h, if_neg, ite_false]
          exact processLinksWith_visited_mono _
            (fun l s y hy => verifyLinksNat_visited_mono oracle d l s y hy) _ _ _ _ url
            (List.mem_cons_self _ _)

/-- Entering the processing branch of verify_links spends exactly the
not-yet-visited budget of the seed: the potential is unchanged. -/
lemma phi_vlProcess (oracle : String → Option PageInfo) (u url : String) (st : CrawlState)
    (hv : url ∉ st.visited) : phi u ((vlProcess oracle url st).2) = phi u st := by
  by_cases hu : u = url
  · subst hu
    simp [phi, vlProcess, addEvent, List.count_append, List.count_cons, List.mem_cons, hv]
  · simp [phi, vlProcess, addEvent, List.count_append, List.count_cons, List.mem_cons, hu,
      fun h : u = url => hu h]

/-- The link loop never increases the potential, provided each recursive
call does not. -/
lemma processLinksWith_phi (u : String) (f : String → CrawlState → VLRet × CrawlState)
    (hf : ∀ l s, phi u ((f l s).2) ≤ phi u s) (total : Nat) :
    ∀ (ls : List String) (i : Nat) (st : CrawlState),
      phi u (processLinksWith f total i ls st) ≤ phi u st := by
  intro ls
  induction ls with
  | nil => intro i st; simp [processLinksWith]
  | cons l ls ih =>
      intro i st
      by_cases hv : l ∈ st.visited
      · simpa [processLinksWith, hv] using ih (i + 1) st
      · simp only [processLinksWith, hv, if_neg, ite_false]
        calc phi u (processLinksWith f total (i + 1) ls ((f l (addEvent _ st)).2))
            ≤ phi u ((f l (addEvent _ st)).2) := ih (i + 1) _
          _ ≤ phi u (addEvent _ st) := hf l _
          _ = phi u st := phi_addEvent u _ st

/-- verify_links at a Nat depth never increases the potential: processing
a URL pairs one _process_page call with marking it visited. -/
lemma verifyLinksNat_phi (oracle : String → Option PageInfo) (u : String) :
    ∀ (d : Nat) (url : String) (st : CrawlState),
      phi u ((verifyLinksNat oracle d url st).2) ≤ phi u st := by
  intro d
  induction d with
  | zero =>
      intro url st
      by_cases hv : url ∈ st.visited
      · simp [verifyLinksNat, hv]
      · have hp := phi_vlProcess oracle u url st hv
        cases h : oracle url with
        | none =>
            simp only [verifyLinksNat, hv, if_neg, ite_false]
            rw [show (vlProcess oracle url st) = (oracle url, (vlProcess oracle url st).2) from rfl, h]
            exact le_of_eq hp
        | some p =>
            simp only [verifyLinksNat, hv, if_neg, ite_false]
            rw [show (vlProcess oracle url st) = (oracle url, (vlProcess oracle url st).2) from rfl, h]
            exact le_of_eq hp
  | succ d ih =>
      intro url st
      by_cases hv : url ∈ st.visited
      · simp [verifyLinksNat, hv]
      · have hp := phi_vlProcess oracle u url st hv
        cases h : oracle url with
        | none =>
            simp only [verifyLinksNat, hv, if_neg, ite_false]
            rw [show (vlProcess oracle url st) = (oracle url, (vlProcess oracle url st).2) from rfl, h]
            exact le_of_eq hp
        | some p =>
            simp only [verifyLinksNat, hv, if_neg, ite_false]
            rw [show (vlProcess oracle url st) = (oracle url, (vlProcess oracle url st).2) from rfl, h]
            calc phi u (processLinksWith (fun l s => verifyLinksNat oracle d l s)
                  p.links.length 0 p.links
                  { (vlProcess oracle url st).2 with
                      results := assocSet url p ((vlProcess oracle url st).2).results })
                ≤ phi u { (vlProcess oracle url st).2 with
                      results := assocSet url p ((vlProcess oracle url st).2).results } :=
                  processLinksWith_phi u _ (fun l s => ih l s) _ _ _ _
              _ = phi u ((vlProcess oracle url st).2) := rfl
              _ = phi u st := hp

/-- verify_links never increases the potential. -/
lemma verifyLinks_phi (oracle : String → Option PageInfo) (u : String) (d : Int) (url : String)
    (st : CrawlState) : phi u ((verifyLinks oracle d url st).2) ≤ phi u st := by
  by_cases hd : d < 0
  · simp [verifyLinks, hd]
  · simpa [verifyLinks, hd] using verifyLinksNat_phi oracle u d.toNat url st

/-- A sequence of verify_links invocations never increases the
potential. -/
lemma runVerifies_phi (oracle : String → Option PageInfo) (u : String) :
    ∀ (calls : List (String × Int)) (st : CrawlState),
      phi u (runVerifies oracle calls st) ≤ phi u st := by
  intro calls
  induction calls with
  | nil => intro st; simp [runVerifies]
  | cons c calls ih =>
      intro st
      rcases c with ⟨url, d⟩
      exact le_trans (ih _) (verifyLinks_phi oracle u d url st)

/-- Claim C1, amended: across any sequence of (sequentially invoked)
verify_links calls on one engine instance, _process_page is invoked at
most once per distinct URL — every processing is guarded by the visited
check and immediately marks the URL visited.  crawl_many does not have
this property: each occurrence of a URL in its seed list is processed
unconditionally (crawl_single_url neither checks nor marks visited_urls
for the seed; see the counterexample), and because the visited check
(master_crawl.py line 113) and the visited add (line 121) of the
recursive path are not atomic, two pool workers can additionally race and
both process the same child link. -/
theorem verify_links_processes_each_url_at_most_once (oracle : String → Option PageInfo)
    (calls : List (String × Int)) (clock : List ℚ) (u : String) :
    ((runVerifies oracle calls (initCrawlState clock)).processedLog).count u ≤ 1 := by
  have h := runVerifies_phi oracle u calls (initCrawlState clock)
  have hinit : phi u (initCrawlState clock) = 1 := by simp [phi, initCrawlState]
  have hcount : ((runVerifies oracle calls (initCrawlState clock)).processedLog).count u
      ≤ phi u (runVerifies oracle calls (initCrawlState clock)) := Nat.le_add_right _ _
  omega

/-- Dict assignment followed by lookup of the same key yields the
assigned value. -/
lemma assocFind_assocSet_self (k : String) (v : PageInfo) :
    ∀ l : List (String × PageInfo), assocFind k (assocSet k v l) = some v := by
  intro l
  induction l with
  | nil => simp [assocSet, assocFind]
  | cons e rest ih =>
      rcases e with ⟨k', v'⟩
      by_cases h : k' = k
      · simp [assocSet, assocFind, h]
      · simp [assocSet, assocFind, h, ih]

/-- Dict assignment leaves lookups of other keys unchanged. -/
lemma assocFind_assocSet_ne (k q : String) (v : PageInfo) (h : q ≠ k) :
    ∀ l : List (String × PageInfo), assocFind q (assocSet k v l) = assocFind q l := by
  have hkq : ¬ k = q := fun hh => h hh.symm
  intro l
  induction l with
  | nil => simp [assocSet, assocFind, hkq]
  | cons e rest ih =>
      rcases e with ⟨k', v'⟩
      by_cases hk : k' = k
      · subst hk
        simp [assocSet, assocFind, hkq]
      · simp [assocSet, assocFind, hk, ih]

/-- The link loop preserves the results-map binding of every visited key,
provided each recursive call does. -/
lemma processLinksWith_find (u : String) (f : String → CrawlState → VLRet × CrawlState)
    (hfm : ∀ l s x, x ∈ s.visited → x ∈ ((f l s).2).visited)
    (hf : ∀ l s, u ∈ s.visited →
      assocFind u ((f l s).2).results = assocFind u s.results) (total : Nat) :
    ∀ (ls : List String) (i : Nat) (st : CrawlState), u ∈ st.visited →
      assocFind u (processLinksWith f total i ls st).results = assocFind u st.results := by
  intro ls
  induction ls with
  | nil => intro i st _; simp [processLinksWith]
  | cons l ls ih =>
      intro i st hu
      by_cases hv : l ∈ st.visited
      · simpa [processLinksWith, hv] using ih (i + 1) st hu
      · simp only [processLinksWith, hv, if_neg, ite_false]
        rw [ih (i + 1) ((f l (addEvent (.processingLink (i + 1) total l) st)).2)
          (hfm l (addEvent (.processingLink (i + 1) total l) st) u hu)]
        exact hf l (addEvent (.processingLink (i + 1) total l) st) hu

/-- verify_links at a Nat depth preserves the results-map binding of
every already-visited key: bindings are written only for URLs that pass
the visited check, and a visited URL never passes it again. -/
lemma verifyLinksNat_find (oracle : String → Option PageInfo) (u : String) :
    ∀ (d : Nat) (url : String) (st : CrawlState), u ∈ st.visited →
      assocFind u ((verifyLinksNat oracle d url st).2).results = assocFind u st.results := by
  intro d
  induction d with
  | zero =>
      intro url st hu
      by_cases hv : url ∈ st.visited
      · simp [verifyLinksNat, hv]
      · have hne : u ≠ url := fun h => hv (h ▸ hu)
        cases h : oracle url with
        | none => simp [verifyLinksNat, hv, vlProcess, addEvent, h]
        | some p =>
            simp [verifyLinksNat, hv, vlProcess, addEvent, h]
            exact assocFind_assocSet_ne url u p hne _
  | succ d ih =>
      intro url st hu
      by_cases hv : url ∈ st.visited
      · simp [verifyLinksNat, hv]
      · have hne : u ≠ url := fun h => hv (h ▸ hu)
        cases h : oracle url with
        | none => simp [verifyLinksNat, hv, vlProcess, addEvent, h]
        | some p =>
            simp only [verifyLinksNat, hv, vlProcess, addEvent, h, if_neg, ite_false]
            rw [processLinksWith_find u _
              (fun l s x hx => verifyLinksNat_visited_mono oracle d l s x hx)
              (fun l s hs => ih l s hs) _ _ _ _ (List.mem_cons_of_mem _ hu)]
            exact assocFind_assocSet_ne url u p hne _

/-- On an unvisited seed whose processing fails, verify_links at a Nat
depth returns None and leaves the results map unchanged. -/
lemma verifyLinksNat_none_ret (oracle : String → Option PageInfo) (d : Nat) (url : String)
    (st : CrawlState) (hv : url ∉ st.visited) (h : oracle url = none) :
    (verifyLinksNat oracle d url st).1 = VLRet.noneVal ∧
    ((verifyLinksNat oracle d url st).2).results = st.results := by
  cases d with
  | zero => simp [verifyLinksNat, hv, vlProcess, addEvent, h]
  | succ d => simp [verifyLinksNat, hv, vlProcess, addEvent, h]

/-- On an unvisited seed whose processing succeeds with record p,
verify_links at a Nat depth returns p and the results map binds the seed
to p. -/
lemma verifyLinksNat_some_ret (oracle : String → Option PageInfo) (d : Nat) (url : String)
    (st : CrawlState) (p : PageInfo) (hv : url ∉ st.visited) (h : oracle url = some p) :
    (verifyLinksNat oracle d url st).1 = VLRet.record p ∧
    assocFind url ((verifyLinksNat oracle d url st).2).results = some p := by
  cases d with
  | zero =>
      constructor
      · simp [verifyLinksNat, hv, vlProcess, addEvent, h]
      · simp [verifyLinksNat, hv, vlProcess, addEvent, h]
        exact assocFind_assocSet_self url p _
  | succ d =>
      constructor
      · simp [verifyLinksNat, hv, vlProcess, addEvent, h]
      · simp only [verifyLinksNat, hv, vlProcess, addEvent, h, if_neg, ite_false]
        rw [processLinksWith_find url _
          (fun l s x hx => verifyLinksNat_visited_mono oracle d l s x hx)
          (fun l s hs => verifyLinksNat_find oracle url d l s hs) _ _ _ _
          (List.mem_cons_self _ _)]
        exact assocFind_assocSet_self url p _

/-- Claim C3, amended: verify_links on an unvisited seed at depth at
least 0 returns the seed's own page_info — None when _process_page fails
(leaving the results map untouched), and the seed's record on success —
while the url-keyed accumulation happens in the engine's results field,
which then binds the seed to its record.  The early exits return the
empty dict (see the C4 theorem). -/
theorem verifyLinks_returns_seed_page_info (oracle : String → Option PageInfo) (d : Int)
    (url : String) (st : CrawlState) (hd : 0 ≤ d) (hv : url ∉ st.visited) :
    (oracle url = none →
      (verifyLinks oracle d url st).1 = VLRet.noneVal ∧
      ((verifyLinks oracle d url st).2).results = st.results) ∧
    (∀ p, oracle url = some p →
      (verifyLinks oracle d url st).1 = VLRet.record p ∧
      assocFind url (((verifyLinks oracle d url st).2).results) = some p) := by
  have hd' : ¬ d < 0 := not_lt.mpr hd
  constructor
  · intro h
    simpa [verifyLinks, hd'] using verifyLinksNat_none_ret oracle d.toNat url st hv h
  · intro p h
    simpa [verifyLinks, hd'] using verifyLinksNat_some_ret oracle d.toNat url st p hv h

/-- Witness for the amended C3: a failing seed returns None with an
untouched results map, and a succeeding seed returns its record. -/
theorem verifyLinks_returns_seed_page_info_witness :
    ((0 : Int) ≤ 0 ∧ "https://w.test/" ∉ (initCrawlState []).visited) ∧
    ((verifyLinks (fun _ => none) 0 "https://w.test/" (initCrawlState [])).1 = VLRet.noneVal ∧
      ((verifyLinks (fun _ => none) 0 "https://w.test/" (initCrawlState [])).2).results
        = (initCrawlState []).results) ∧
    ((verifyLinks (fun _ => some { links := [], payload := 7 }) 0 "https://w.test/"
        (initCrawlState [])).1 = VLRet.record { links := [], payload := 7 } ∧
      assocFind "https://w.test/"
        (((verifyLinks (fun _ => some { links := [], payload := 7 }) 0 "https://w.test/"
          (initCrawlState [])).2).results) = some { links := [], payload := 7 }) :=
  ⟨⟨le_refl 0, by decide⟩,
   (verifyLinks_returns_seed_page_info (fun _ => none) 0 "https://w.test/"
      (initCrawlState []) (le_refl 0) (by decide)).1 rfl,
   (verifyLinks_returns_seed_page_info (fun _ => some { links := [], payload := 7 }) 0
      "https://w.test/" (initCrawlState []) (le_refl 0) (by decide)).2
      { links := [], payload := 7 } rfl⟩

/-- Claim C10: a verify_links call at depth at least 0 on a
not-yet-visited URL puts the URL into the engine's visited set before
processing — it stays there whatever _process_page returns — every later
verify_links call on that URL returns the empty dict without reprocessing
and without touching the state, and no later verify_links call on any URL
ever removes it from the visited set. -/
theorem verifyLinks_visited_permanent (oracle : String → Option PageInfo) (d : Int)
    (url : String) (st : CrawlState) (hd : 0 ≤ d) (hv : url ∉ st.visited) :
    url ∈ ((verifyLinks oracle d url st).2).visited ∧
    (∀ (oracle2 : String → Option PageInfo) (d2 : Int) (st2 : CrawlState),
      url ∈ st2.visited → verifyLinks oracle2 d2 url st2 = (VLRet.dictEmpty, st2)) ∧
    (∀ (oracle2 : String → Option PageInfo) (d2 : Int) (u2 : String) (st2 : CrawlState),
      url ∈ st2.visited → url ∈ ((verifyLinks oracle2 d2 u2 st2).2).visited) := by
  have hd' : ¬ d < 0 := not_lt.mpr hd
  refine ⟨?_, ?_, ?_⟩
  · simpa [verifyLinks, hd'] using verifyLinksNat_marks_visited oracle d.toNat url st hv
  · intro oracle2 d2 st2 h2
    exact verifyLinks_early_exit_aux oracle2 d2 url st2 (Or.inr h2)
  · intro oracle2 d2 u2 st2 h2
    exact verifyLinks_visited_mono oracle2 d2 u2 st2 url h2

/-- Witness for C10 on a fresh engine with a failing _process_page. -/
theorem verifyLinks_visited_permanent_witness :
    ((0 : Int) ≤ 0 ∧ "https://w.test/" ∉ (initCrawlState []).visited) ∧
    ("https://w.test/"
        ∈ ((verifyLinks (fun _ => none) 0 "https://w.test/" (initCrawlState [])).2).visited ∧
      (∀ (oracle2 : String → Option PageInfo) (d2 : Int) (st2 : CrawlState),
        "https://w.test/" ∈ st2.visited →
          verifyLinks oracle2 d2 "https://w.test/" st2 = (VLRet.dictEmpty, st2)) ∧
      (∀ (oracle2 : String → Option PageInfo) (d2 : Int) (u2 : String) (st2 : CrawlState),
        "https://w.test/" ∈ st2.visited →
          "https://w.test/" ∈ ((verifyLinks oracle2 d2 u2 st2).2).visited)) :=
  ⟨⟨le_refl 0, by decide⟩,
   verifyLinks_visited_permanent (fun _ => none) 0 "https://w.test/" (initCrawlState [])
     (le_refl 0) (by decide)⟩

/-- Dropping a leading run of whitespace does not change the
non-whitespace characters. -/
lemma nonWs_dropWhile (s : List Char) : nonWs (s.dropWhile pySpace) = nonWs s := by
  induction s with
  | nil => rfl
  | cons c r ih =>
      by_cases h : pySpace c
      · simp only [List.dropWhile_cons, h, if_true]
        rw [ih]
        simp [nonWs, List.filter_cons, h]
      · simp [List.dropWhile_cons, h]

/-- Filtering commutes with reversal. -/
lemma nonWs_reverse (s : List Char) : nonWs s.reverse = (nonWs s).reverse := by
  simp [nonWs, List.filter_reverse]

/-- Stripping removes only whitespace. -/
lemma nonWs_pyStrip (s : List Char) : nonWs (pyStrip s) = nonWs s := by
  unfold pyStrip
  rw [nonWs_reverse, nonWs_dropWhile, nonWs_reverse, nonWs_dropWhile]
  simp

/-- A string strips to empty exactly when it has no non-whitespace
character. -/
lemma pyStrip_eq_nil_iff (s : List Char) : pyStrip s = [] ↔ nonWs s = [] := by
  constructor
  · intro h
    have := nonWs_pyStrip s
    rw [h] at this
    exact this.symm
  · intro h
    have hall : ∀ c ∈ s, pySpace c := by
      intro c hc
      by_contra hcs
      have : c ∈ nonWs s := List.mem_filter.mpr ⟨hc, by simpa using hcs⟩
      simp [h] at this
    unfold pyStrip
    have hd : s.dropWhile pySpace = [] := List.dropWhile_eq_nil_iff.mpr hall
    simp [hd]

/-- Dropping a prefix never lengthens a list. -/
lemma dropWhile_length_le (p : Char → Bool) (s : List Char) :
    (s.dropWhile p).length ≤ s.length := by
  induction s with
  | nil => simp
  | cons c r ih =>
      by_cases h : p c
      · simp only [List.dropWhile_cons, h, if_true]
        exact le_trans ih (Nat.le_succ _)
      · simp [List.dropWhile_cons, h]

/-- Stripping never lengthens a string. -/
lemma pyStrip_length_le (s : List Char) : (pyStrip s).length ≤ s.length := by
  unfold pyStrip
  calc ((s.dropWhile pySpace).reverse.dropWhile pySpace).reverse.length
      = ((s.dropWhile pySpace).reverse.dropWhile pySpace).length := List.length_reverse _
    _ ≤ (s.dropWhile pySpace).reverse.length := dropWhile_length_le _ _
    _ = (s.dropWhile pySpace).length := List.length_reverse _
    _ ≤ s.length := dropWhile_length_le _ _

/-- Filtering distributes over append. -/
lemma nonWs_append (a b : List Char) : nonWs (a ++ b) = nonWs a ++ nonWs b := by
  simp [nonWs, List.filter_append]

/-- Joining distributes over append. -/
lemma joinChars_append (xs ys : List (List Char)) :
    joinChars (xs ++ ys) = joinChars xs ++ joinChars ys := by
  induction xs with
  | nil => rfl
  | cons x xs ih => simp [joinChars, ih]

/-- The leading hash run of a string together with the remainder
reconstitutes it. -/
lemma countHashes_spec (s : List Char) :
    List.replicate (countHashes s) '#' ++ s.drop (countHashes s) = s := by
  induction s with
  | nil => simp [countHashes]
  | cons c r ih =>
      by_cases h : c = '#'
      · subst h
        rw [show countHashes ('#' :: r) = countHashes r + 1 from by simp [countHashes]]
        simp only [List.replicate_succ, List.cons_append, List.drop_succ_cons]
        rw [ih]
      · simp [countHashes, h]

/-- A matched delimiter plus the remainder reconstitutes the scanned
string. -/
lemma matchDelim_join (s d r : List Char) (h : matchDelim s = some (d, r)) : d ++ r = s := by
  cases s with
  | nil => simp [matchDelim] at h
  | cons c rest =>
      by_cases hc : c = '\n'
      · subst hc
        cases rest with
        | nil => simp [matchDelim] at h
        | cons c2 rest2 =>
            by_cases hc2 : c2 = '\n'
            · subst hc2
              simp [matchDelim] at h
              obtain ⟨h1, h2⟩ := h
              subst h1
              subst h2
              rfl
            · by_cases hcnt : 1 ≤ countHashes (c2 :: rest2) ∧ countHashes (c2 :: rest2) ≤ 6
              · cases hdrop : (c2 :: rest2).drop (countHashes (c2 :: rest2)) with
                | nil => simp [matchDelim, hc2, hcnt, hdrop] at h
                | cons c3 rest3 =>
                    by_cases hc3 : c3 = ' '
                    · subst hc3
                      simp [matchDelim, hc2, hcnt, hdrop] at h
                      have hspec := countHashes_spec (c2 :: rest2)
                      rw [hdrop] at hspec
                      obtain ⟨h1, h2⟩ := h
                      subst h1
                      subst h2
                      simp only [List.cons_append, List.append_assoc, List.singleton_append,
                        List.nil_append]
                      rw [hspec]
                    · simp [matchDelim, hc2, hcnt, hdrop, hc3] at h
              · simp [matchDelim, hc2, hcnt] at h
      · simp [matchDelim, hc] at h

/-- Joining the parts produced by the splitting scan reproduces the
scanned text, for every fuel value. -/
lemma splitGo_join : ∀ (fuel : Nat) (s acc : List Char),
    joinChars (splitGo fuel s acc) = acc.reverse ++ s := by
  intro fuel
  induction fuel with
  | zero =>
      intro s acc
      cases s with
      | nil => simp [splitGo, joinChars]
      | cons c r => simp [splitGo, joinChars]
  | succ f ih =>
      intro s acc
      cases s with
      | nil => simp [splitGo, joinChars]
      | cons c r =>
          cases hm : matchDelim (c :: r) with
          | none =>
              simp only [splitGo, hm]
              rw [ih]
              simp
          | some dr =>
              rcases dr with ⟨d, r2⟩
              simp only [splitGo, hm, joinChars]
              rw [ih]
              simp only [List.reverse_nil, List.nil_append]
              rw [← List.append_assoc, ← matchDelim_join (c :: r) d r2 hm]
              simp

/-- Joining the parts of re.split reproduces the original markdown. -/
lemma pySplit_join (s : List Char) : joinChars (pySplit s) = s := by
  simpa using splitGo_join s.length s []

/-- The empty string has no non-whitespace characters. -/
lemma nonWs_nil : nonWs [] = [] := rfl

/-- The chunking loop preserves the non-whitespace characters: emitted
chunks, the running chunk, and the unconsumed parts always account for
all of them, in order. -/
lemma chunkLoop_nonWs (maxS : Nat) :
    ∀ (parts : List (List Char)) (cur : List Char) (idx : Nat) (acc : List MdChunk),
      nonWs (joinChars ((chunkLoop maxS parts cur idx acc).map MdChunk.content)) =
        nonWs (joinChars (acc.map MdChunk.content)) ++ nonWs cur ++ nonWs (joinChars parts) := by
  intro parts
  induction parts with
  | nil =>
      intro cur idx acc
      by_cases h : pyStrip cur = []
      · have hnw : nonWs cur = [] := (pyStrip_eq_nil_iff cur).mp h
        simp [chunkLoop, h, joinChars, hnw, nonWs_nil]
      · rw [show chunkLoop maxS [] cur idx acc = acc ++ [mkChunk idx cur] from
          by simp [chunkLoop, h]]
        simp only [List.map_append, List.map_cons, List.map_nil, joinChars_append, nonWs_append,
          joinChars, mkChunk]
        simp [nonWs_pyStrip, nonWs_nil]
  | cons pt rest ih =>
      intro cur idx acc
      by_cases hskip : pyStrip pt = []
      · have hnw : nonWs pt = [] := (pyStrip_eq_nil_iff pt).mp hskip
        rw [show chunkLoop maxS (pt :: rest) cur idx acc = chunkLoop maxS rest cur idx acc from
          by simp [chunkLoop, hskip]]
        rw [ih]
        simp [joinChars, nonWs_append, hnw]
      · by_cases hflush : cur.length + pt.length > maxS ∧ cur ≠ []
        · rw [show chunkLoop maxS (pt :: rest) cur idx acc
              = chunkLoop maxS rest pt (idx + 1) (acc ++ [mkChunk idx cur]) from
            by simp [chunkLoop, hskip, hflush]]
          rw [ih]
          simp [joinChars, joinChars_append, nonWs_append, mkChunk, nonWs_pyStrip,
            List.append_assoc]
        · rw [show chunkLoop maxS (pt :: rest) cur idx acc
              = chunkLoop maxS rest (cur ++ pt) idx acc from
            by simp [chunkLoop, hskip, hflush]]
          rw [ih]
          simp [joinChars, nonWs_append, List.append_assoc]

/-- Claim C6: concatenating the contents of all chunks of
_chunk_markdown, in order, reproduces the original markdown up to the
whitespace dropped at split points — the non-whitespace characters are
exactly those of the input, in the same order; none is lost or
reordered. -/
theorem chunk_concat_preserves_nonws (md : List Char) (maxSize : Nat) :
    nonWs (joinChars ((chunkMarkdown md maxSize).map MdChunk.content)) = nonWs md := by
  by_cases h : md = []
  · simp [chunkMarkdown, h, joinChars, nonWs]
  · unfold chunkMarkdown
    rw [if_neg h, chunkLoop_nonWs]
    have hpj : nonWs (joinChars (pySplit md)) = nonWs md := by rw [pySplit_join]
    simp [joinChars, nonWs_nil, hpj]

/-- A flushed running chunk satisfies the chunk bound: either it fits, or
it is a single oversized split part, stripped. -/
lemma mkChunk_ok (maxS : Nat) (P0 : List (List Char)) (idx : Nat) (cur : List Char)
    (h : nonWs cur ≠ [] ∧ (cur.length ≤ maxS ∨ cur ∈ P0)) :
    (mkChunk idx cur).content ≠ [] ∧ ((mkChunk idx cur).content.length ≤ maxS ∨
      ∃ p ∈ P0, (mkChunk idx cur).content = pyStrip p ∧ maxS < p.length) := by
  constructor
  · intro hh
    exact h.1 ((pyStrip_eq_nil_iff cur).mp hh)
  · rcases h.2 with hlen | hmem
    · exact Or.inl (le_trans (pyStrip_length_le cur) hlen)
    · by_cases hlen : (pyStrip cur).length ≤ maxS
      · exact Or.inl hlen
      · refine Or.inr ⟨cur, hmem, rfl, ?_⟩
        have h1 : maxS < (pyStrip cur).length := Nat.lt_of_not_le hlen
        exact lt_of_lt_of_le h1 (pyStrip_length_le cur)

/-- Loop invariant of _chunk_markdown: every emitted chunk is non-empty
and within the bound unless it consists of one oversized split part. -/
lemma chunkLoop_ok (maxS : Nat) (P0 : List (List Char)) :
    ∀ (parts : List (List Char)) (cur : List Char) (idx : Nat) (acc : List MdChunk),
      (∀ pt ∈ parts, pt ∈ P0) →
      (cur = [] ∨ (nonWs cur ≠ [] ∧ (cur.length ≤ maxS ∨ cur ∈ P0))) →
      (∀ c ∈ acc, c.content ≠ [] ∧ (c.content.length ≤ maxS ∨
        ∃ p ∈ P0, c.content = pyStrip p ∧ maxS < p.length)) →
      ∀ c ∈ chunkLoop maxS parts cur idx acc,
        c.content ≠ [] ∧ (c.content.length ≤ maxS ∨
          ∃ p ∈ P0, c.content = pyStrip p ∧ maxS < p.length) := by
  intro parts
  induction parts with
  | nil =>
      intro cur idx acc hparts hcur hacc c hc
      by_cases h : pyStrip cur = []
      · rw [show chunkLoop maxS [] cur idx acc = acc from by simp [chunkLoop, h]] at hc
        exact hacc c hc
      · rw [show chunkLoop maxS [] cur idx acc = acc ++ [mkChunk idx cur] from
          by simp [chunkLoop, h]] at hc
        rcases List.mem_append.mp hc with hmem | hmem
        · exact hacc c hmem
        · rcases hcur with hnil | hgood
          · exact absurd (hnil ▸ h) (fun hh => hh rfl)
          · have := mkChunk_ok maxS P0 idx cur hgood
            simpa [List.mem_singleton.mp hmem] using this
  | cons pt rest ih =>
      intro cur idx acc hparts hcur hacc c hc
      have hptP0 : pt ∈ P0 := hparts pt (List.mem_cons_self _ _)
      have hrest : ∀ q ∈ rest, q ∈ P0 := fun q hq => hparts q (List.mem_cons_of_mem _ hq)
      by_cases hskip : pyStrip pt = []
      · rw [show chunkLoop maxS (pt :: rest) cur idx acc = chunkLoop maxS rest cur idx acc from
          by simp [chunkLoop, hskip]] at hc
        exact ih cur idx acc hrest hcur hacc c hc
      · have hptnw : nonWs pt ≠ [] := fun hh => hskip ((pyStrip_eq_nil_iff pt).mpr hh)
        by_cases hflush : cur.length + pt.length > maxS ∧ cur ≠ []
        · rw [show chunkLoop maxS (pt :: rest) cur idx acc
              = chunkLoop maxS rest pt (idx + 1) (acc ++ [mkChunk idx cur]) from
            by simp [chunkLoop, hskip, hflush]] at hc
          have hcurgood : nonWs cur ≠ [] ∧ (cur.length ≤ maxS ∨ cur ∈ P0) := by
            rcases hcur with hnil | hgood
            · exact absurd hnil hflush.2
            · exact hgood
          refine ih pt (idx + 1) (acc ++ [mkChunk idx cur]) hrest
            (Or.inr ⟨hptnw, Or.inr hptP0⟩) ?_ c hc
          intro c' hc'
          rcases List.mem_append.mp hc' with hmem | hmem
          · exact hacc c' hmem
          · have := mkChunk_ok maxS P0 idx cur hcurgood
            simpa [List.mem_singleton.mp hmem] using this
        · rw [show chunkLoop maxS (pt :: rest) cur idx acc
              = chunkLoop maxS rest (cur ++ pt) idx acc from
            by simp [chunkLoop, hskip, hflush]] at hc
          refine ih (cur ++ pt) idx acc hrest ?_ hacc c hc
          rcases hcur with hnil | hgood
          · subst hnil
            exact Or.inr ⟨by simpa using hptnw, Or.inr (by simpa using hptP0)⟩
          · have hcurne : cur ≠ [] := by
              intro hh
              exact hgood.1 (by simp [hh, nonWs_nil])
            have hsum : cur.length + pt.length ≤ maxS := by
              by_contra hgt
              exact hflush ⟨Nat.lt_of_not_le hgt, hcurne⟩
            refine Or.inr ⟨?_, Or.inl (by simpa [List.length_append] using hsum)⟩
            intro hh
            rw [nonWs_append] at hh
            exact hgood.1 (List.append_eq_nil.mp hh).1

/-- Claim C5: every chunk of _chunk_markdown has non-empty content, and
its content length is at most max_size unless the chunk consists of a
single split part that alone exceeds max_size (the stripped form of one
atomic part of the regex split). -/
theorem chunk_nonempty_and_bounded (md : List Char) (maxSize : Nat) :
    ∀ c ∈ chunkMarkdown md maxSize,
      c.content ≠ [] ∧ (c.content.length ≤ maxSize ∨
        ∃ p ∈ pySplit md, c.content = pyStrip p ∧ maxSize < p.length) := by
  intro c hc
  by_cases h : md = []
  · simp [chunkMarkdown, h] at hc
  · unfold chunkMarkdown at hc
    rw [if_neg h] at hc
    exact chunkLoop_ok maxSize (pySplit md) (pySplit md) [] 0 []
      (fun pt hpt => hpt) (Or.inl rfl) (by simp) c hc

/-- Witness for C5 on a two-character markdown. -/
theorem chunk_nonempty_and_bounded_witness :
    (({ id := 0, content := ['a', 'b'], wordCount := 1 } : MdChunk)
        ∈ chunkMarkdown "ab".toList 10) ∧
    (({ id := 0, content := ['a', 'b'], wordCount := 1 } : MdChunk).content ≠ [] ∧
      (({ id := 0, content := ['a', 'b'], wordCount := 1 } : MdChunk).content.length ≤ 10 ∨
        ∃ p ∈ pySplit "ab".toList,
          ({ id := 0, content := ['a', 'b'], wordCount := 1 } : MdChunk).content = pyStrip p ∧
            10 < p.length)) :=
  ⟨by decide, chunk_nonempty_and_bounded "ab".toList 10 _ (by decide)⟩

/-- The effective page denominator is positive for non-negative
max_pages (0 is replaced by the default 50). -/
lemma jobMaxPages_pos (mp : Int) (hmp : 0 ≤ mp) : 0 < jobMaxPages mp := by
  by_cases h : mp = 0
  · simp [jobMaxPages, h]
  · simp only [jobMaxPages, h, if_neg, ite_false]
    exact_mod_cast lt_of_le_of_ne hmp (Ne.symm h)

/-- sync_update_progress never writes progress. -/
lemma sync_progress_eq (m : List Char) (js : JobState) :
    (syncUpdateProgress m js).progress = js.progress := by
  unfold syncUpdateProgress
  by_cases h : hasInfix successPat m = true
  · simp [h]
  · simp [h]

/-- sync_update_progress never decreases pages_crawled. -/
lemma sync_pages_le (m : List Char) (js : JobState) :
    js.pagesCrawled ≤ (syncUpdateProgress m js).pagesCrawled := by
  unfold syncUpdateProgress
  by_cases h : hasInfix successPat m = true
  · simp [h]
  · simp [h]

/-- The progress written by the per-page update is exactly
min(0.9, pages_crawled / max_pages) at its own (just-bumped) counter. -/
lemma pageStartUpdate_progress (mp : Int) (url : List Char) (js : JobState) :
    (pageStartUpdate mp url js).progress
      = min (9 / 10) (((pageStartUpdate mp url js).pagesCrawled : ℚ) / jobMaxPages mp) := rfl

/-- The per-page update bumps the (already non-decreased) counter. -/
lemma pageStartUpdate_pages (mp : Int) (url : List Char) (js : JobState) :
    (pageStartUpdate mp url js).pagesCrawled
      = (syncUpdateProgress ("Processing page: ".toList ++ url) js).pagesCrawled + 1 := rfl

/-- The result-dependent messages never write progress. -/
lemma pageResultMessages_progress (url : List Char) (res : Option PageMeta) (js : JobState) :
    (pageResultMessages url res js).progress = js.progress := by
  cases res with
  | none => exact sync_progress_eq _ _
  | some meta =>
      simp only [pageResultMessages]
      by_cases hemb : meta.hasEmbedding <;>
        simp [hemb, sync_progress_eq]

/-- The result-dependent messages never decrease pages_crawled. -/
lemma pageResultMessages_pages (url : List Char) (res : Option PageMeta) (js : JobState) :
    js.pagesCrawled ≤ (pageResultMessages url res js).pagesCrawled := by
  cases res with
  | none => exact sync_pages_le _ _
  | some meta =>
      simp only [pageResultMessages]
      by_cases hemb : meta.hasEmbedding
      · simp only [hemb, if_pos]
        exact le_trans (sync_pages_le _ _) (le_trans (sync_pages_le _ _)
          (le_trans (sync_pages_le _ _) (sync_pages_le _ _)))
      · simp only [hemb, if_neg, ite_false]
        exact le_trans (sync_pages_le _ _) (le_trans (sync_pages_le _ _) (sync_pages_le _ _))

/-- One instrumented page processing: the counter some n at least the old
counter is bumped to n + 1, progress becomes min(0.9, (n+1)/max_pages),
and the final counter is at least n + 1. -/
lemma processPage_spec (mp : Int) (url : List Char) (res : Option PageMeta) (js : JobState) :
    ∃ n : Nat, js.pagesCrawled ≤ n ∧
      (processPageWithProgress mp url res js).progress
        = min (9 / 10) ((((n : ℚ) + 1)) / jobMaxPages mp) ∧
      n + 1 ≤ (processPageWithProgress mp url res js).pagesCrawled := by
  refine ⟨(syncUpdateProgress ("Processing page: ".toList ++ url) js).pagesCrawled,
    sync_pages_le _ _, ?_, ?_⟩
  · rw [processPageWithProgress, pageResultMessages_progress, pageStartUpdate_progress,
      pageStartUpdate_pages]
    push_cast
    rfl
  · rw [processPageWithProgress, ← pageStartUpdate_pages mp url js]
    exact pageResultMessages_pages _ _ _

/-- Division by the page denominator is monotone when max_pages is
non-negative. -/
lemma div_jobMaxPages_mono (mp : Int) (hmp : 0 ≤ mp) {a b : ℚ} (h : a ≤ b) :
    a / jobMaxPages mp ≤ b / jobMaxPages mp :=
  (div_le_div_iff_of_pos_right (jobMaxPages_pos mp hmp)).mpr h

/-- One job operation never lowers progress and preserves the invariant
relating progress to the page counter. -/
lemma jobStep_mono (mp : Int) (hmp : 0 ≤ mp) (op : JobOp) (js : JobState)
    (h1 : js.progress ≤ 9 / 10)
    (h2 : js.progress ≤ (js.pagesCrawled : ℚ) / jobMaxPages mp) :
    js.progress ≤ (jobStep mp js op).progress ∧
    (jobStep mp js op).progress ≤ 9 / 10 ∧
    (jobStep mp js op).progress ≤ ((jobStep mp js op).pagesCrawled : ℚ) / jobMaxPages mp := by
  cases op with
  | logMsg m => exact ⟨le_rfl, h1, h2⟩
  | setStatus st => exact ⟨le_rfl, h1, h2⟩
  | page url res =>
      obtain ⟨n, hn, hprog, hpc⟩ := processPage_spec mp url res js
      have hprog' : (jobStep mp js (.page url res)).progress
          = min (9 / 10) ((((n : ℚ) + 1)) / jobMaxPages mp) := hprog
      have hpc' : n + 1 ≤ (jobStep mp js (.page url res)).pagesCrawled := hpc
      refine ⟨?_, ?_, ?_⟩
      · rw [hprog']
        refine le_min h1 (le_trans h2 (div_jobMaxPages_mono mp hmp ?_))
        have : (js.pagesCrawled : ℚ) ≤ (n : ℚ) := by exact_mod_cast hn
        linarith
      · rw [hprog']
        exact min_le_left _ _
      · rw [hprog']
        refine le_trans (min_le_right _ _) (div_jobMaxPages_mono mp hmp ?_)
        exact_mod_cast hpc'

/-- Along the crawling phase and the final completion, the successive
progress values form a non-decreasing chain, given the invariant at the
start. -/
lemma jobChain_aux (mp : Int) (hmp : 0 ≤ mp) :
    ∀ (ops : List JobOp) (js : JobState),
      js.progress ≤ 9 / 10 → js.progress ≤ (js.pagesCrawled : ℚ) / jobMaxPages mp →
      List.Chain' (· ≤ ·)
        (((List.scanl (jobStep mp) js ops).map JobState.progress) ++ [(1 : ℚ)]) := by
  intro ops
  induction ops with
  | nil =>
      intro js h1 h2
      simp only [List.scanl, List.map_cons, List.map_nil, List.cons_append, List.nil_append]
      exact List.chain'_cons.mpr ⟨le_trans h1 (by norm_num), List.chain'_singleton _⟩
  | cons op ops ih =>
      intro js h1 h2
      have hstep := jobStep_mono mp hmp op js h1 h2
      have hih := ih (jobStep mp js op) hstep.2.1 hstep.2.2
      have hhead : ((List.scanl (jobStep mp) (jobStep mp js op) ops).map JobState.progress
          ++ [(1 : ℚ)]).head? = some (jobStep mp js op).progress := by
        cases ops <;> simp [List.scanl]
      simp only [List.scanl, List.map_cons, List.cons_append]
      refine List.chain'_cons'.mpr ⟨?_, hih⟩
      intro y hy
      rw [hhead] at hy
      cases hy
      exact hstep.1

/-- Claim C8, amended: within one job's lifetime, provided the job's
max_pages is non-negative (0 is replaced by the default 50), the progress
value is non-decreasing: it starts at 0, each per-page update writes
min(0.9, pages_crawled / max_pages) for a counter that only grows, no
other crawling-phase operation writes progress, and the final completion
transition writes 1.0, which is at least every earlier value.  A negative
max_pages — accepted unvalidated by the request model — breaks this (see
the counterexample). -/
theorem job_progress_monotone (maxPages : Int) (hmp : 0 ≤ maxPages) (ops : List JobOp) :
    List.Chain' (· ≤ ·) ((jobTrace maxPages ops).map JobState.progress) := by
  unfold jobTrace
  have h := jobChain_aux maxPages hmp ops initJobState (by norm_num [initJobState])
    (by simp [initJobState])
  rw [List.map_append]
  simpa [completeJob, updateStatus] using h

/-- Claim C8, counterexample: request.max_pages is an unvalidated int and
Python's or-default only replaces 0, so a job submitted with
max_pages = -3 reaches the per-page update with a negative denominator:
the first page write lowers progress from 0.0 to min(0.9, -1/3) = -1/3,
and the second lowers it again to -2/3 — progress is strictly decreasing,
refuting the unqualified claim that no operation ever lowers it. -/
theorem progress_decreases_on_negative_max_pages :
    (processPageWithProgress (-3) ['u'] none initJobState).progress
      < initJobState.progress ∧
    (processPageWithProgress (-3) ['u'] none
        (processPageWithProgress (-3) ['u'] none initJobState)).progress
      < (processPageWithProgress (-3) ['u'] none initJobState).progress := by
  have hs1 : (syncUpdateProgress ("Processing page: ".toList ++ ['u']) initJobState).pagesCrawled
      = 0 := by decide
  have hs2 : (syncUpdateProgress ("Processing page: ".toList ++ ['u'])
      (processPageWithProgress (-3) ['u'] none initJobState)).pagesCrawled = 1 := by decide
  have hp1 : (processPageWithProgress (-3) ['u'] none initJobState).progress
      = min (9 / 10 : ℚ) (-(1 / 3)) := by
    rw [processPageWithProgress, pageResultMessages_progress, pageStartUpdate_progress,
      pageStartUpdate_pages, hs1]
    norm_num [jobMaxPages]
  have hp2 : (processPageWithProgress (-3) ['u'] none
      (processPageWithProgress (-3) ['u'] none initJobState)).progress
      = min (9 / 10 : ℚ) (-(2 / 3)) := by
    rw [processPageWithProgress, pageResultMessages_progress, pageStartUpdate_progress,
      pageStartUpdate_pages, hs2]
    norm_num [jobMaxPages]
  rw [hp1, hp2]
  norm_num [initJobState, min_def]

/-- Witness for the amended C8 at the default max_pages of 50. -/
theorem job_progress_monotone_witness :
    (0 : Int) ≤ 50 ∧
    List.Chain' (· ≤ ·) ((jobTrace 50 []).map JobState.progress) :=
  ⟨by norm_num, job_progress_monotone 50 (by norm_num) []⟩
